import Mathlib

/-!
Verification development for the lp-inference-kit TensorFlow quantization
pipeline.  The definitions below are a shallow embedding of
`ilit/adaptor/tf_utils/transform_graph/fold_batch_norm.py` and
`ilit/adaptor/tf_utils/graph_converter.py`.  Numeric tensor values are
modelled with exact rationals; the floating-point square root is an
abstract parameter `sqrt`.  Fallible Python code is modelled in the
`Except PyErr` monad.
-/

/-- Python exception kinds raised by the embedded code. -/
inductive PyErr where
  | valueError (msg : String)
  | indexError
  | assertionError
deriving DecidableEq

deriving instance DecidableEq for Except

/-- An n-dimensional numeric array: explicit shape plus row-major data
(the payload of a TensorProto, as recovered by tensor_util.MakeNdarray). -/
structure Tensor where
  shape : List Nat
  data : List ℚ
deriving DecidableEq

/-- One protobuf AttrValue: a tagged union of the attribute payloads the
embedded code touches.  `unset` is the protobuf default value returned
when a map key is absent. -/
inductive AttrValue where
  | f (x : ℚ)
  | b (x : Bool)
  | type (x : Nat)
  | s (x : String)
  | tensor (t : Tensor)
  | unset
deriving DecidableEq

/-- The `.f` accessor of a protobuf AttrValue (0 on any other payload,
matching the protobuf default). -/
def AttrValue.fVal : AttrValue → ℚ
  | .f x => x
  | _ => 0

/-- The `.b` accessor of a protobuf AttrValue (false on any other payload,
matching the protobuf default). -/
def AttrValue.bVal : AttrValue → Bool
  | .b x => x
  | _ => false

/-- The `.tensor` accessor of a protobuf AttrValue (empty tensor on any
other payload, matching the protobuf default). -/
def AttrValue.tensorVal : AttrValue → Tensor
  | .tensor t => t
  | _ => ⟨[], []⟩

/-- A NodeDef: name, operator kind, ordered input references and the
attribute map. -/
structure NodeDef where
  name : String
  op : String
  input : List String
  attr : List (String × AttrValue)
deriving DecidableEq

/-- Protobuf map access `node.attr[k]`: the stored value, or the default
AttrValue when the key is absent. -/
def getAttr (n : NodeDef) (k : String) : AttrValue :=
  match n.attr.lookup k with
  | some v => v
  | none => .unset

/-- A GraphDef is its ordered list of nodes. -/
abbrev GraphDef := List NodeDef

/-- `graph.find?` by node name: the first node carrying the name (the
dictionary built by the passes keeps the first occurrence). -/
def findNode (g : GraphDef) (nm : String) : Option NodeDef :=
  g.find? (fun n => n.name == nm)

namespace FoldBatchNormNodes

/-- `node_name_from_input` step 1: drop a single leading control marker. -/
def stripCaret : List Char → List Char
  | '^' :: rest => rest
  | l => l

/-- `node_name_from_input` step 2: the regex `(.*):\d+$` — drop one
trailing `:digits` suffix when present. -/
def stripSlotSuffix (l : List Char) : List Char :=
  let r := l.reverse
  let ds := r.takeWhile Char.isDigit
  if ds = [] then l
  else
    match r.drop ds.length with
    | ':' :: rest => rest.reverse
    | _ => l

/-- Does the string end in a `:digits` output-slot suffix?  (Condition of
the regex match in `node_name_from_input`.) -/
def hasSlotSuffix (l : List Char) : Bool :=
  let r := l.reverse
  let ds := r.takeWhile Char.isDigit
  if ds = [] then false
  else
    match r.drop ds.length with
    | ':' :: _ => true
    | _ => false

/-- `FoldBatchNormNodes.node_name_from_input`: strips off ports and other
decorations to get the underlying node name. -/
def node_name_from_input (s : String) : String :=
  ⟨stripSlotSuffix (stripCaret s.data)⟩

/-- `FoldBatchNormNodes.node_from_map`: pulls a node from the name map,
raising ValueError when the stripped name is absent. -/
def node_from_map (node_map : GraphDef) (name : String) : Except PyErr NodeDef :=
  match findNode node_map (node_name_from_input name) with
  | some n => .ok n
  | none => .error (.valueError ("No node named " ++ name ++ " found in map."))

/-- `FoldBatchNormNodes.values_from_const`: the tensor value of a Const
node, raising ValueError on any other op. -/
def values_from_const (node_def : NodeDef) : Except PyErr Tensor :=
  if node_def.op = "Const" then .ok (getAttr node_def "value").tensorVal
  else .error (.valueError ("Node named " ++ node_def.name ++ " should be a Const op for values_from_const."))

/-- `FoldBatchNormNodes.scale_after_normalization`. -/
def scale_after_normalization (node : NodeDef) : Bool :=
  if node.op = "BatchNormWithGlobalNormalization" then
    (getAttr node "scale_after_normalization").bVal
  else true

/-- `FoldBatchNormNodes.INPUT_ORDER`: variant-specific operand order of the
two accepted batch-norm ops. -/
def INPUT_ORDER (op : String) : List String :=
  if op = "BatchNormWithGlobalNormalization" then
    ["conv_op", "mean_op", "var_op", "beta_op", "gamma_op"]
  else
    ["conv_op", "gamma_op", "beta_op", "mean_op", "var_op"]

/-- `FoldBatchNormNodes.EPSILON_ATTR`: name of the attribute holding the
epsilon value, per variant. -/
def EPSILON_ATTR (op : String) : String :=
  if op = "BatchNormWithGlobalNormalization" then "variance_epsilon" else "epsilon"

/-- `INPUT_ORDER[op].index(role)`. -/
def inputIdx (op role : String) : Nat :=
  (INPUT_ORDER op).indexOf role

/-- `node.input[i]`, raising IndexError when the input list is too short. -/
def getInput (n : NodeDef) (i : Nat) : Except PyErr String :=
  match n.input.get? i with
  | some s => .ok s
  | none => .error .indexError

/-- `tensor.shape[i]`, raising IndexError out of range. -/
def shapeAt (t : Tensor) (i : Nat) : Except PyErr Nat :=
  match t.shape.get? i with
  | some d => .ok d
  | none => .error .indexError

/-- `node_from_map(input_node_map, n.input[i])`. -/
def resolveInput (G : GraphDef) (n : NodeDef) (i : Nat) : Except PyErr NodeDef :=
  match getInput n i with
  | .error e => .error e
  | .ok s => node_from_map G s

/-- The convolution output-channel count: `weights.shape[3]` for Conv2D,
`weights.shape[2] * weights.shape[3]` for DepthwiseConv2dNative. -/
def channelCountOf (convOp : String) (w : Tensor) : Except PyErr Nat :=
  if convOp = "Conv2D" then shapeAt w 3
  else
    match shapeAt w 2, shapeAt w 3 with
    | .ok c2, .ok c3 => .ok (c2 * c3)
    | .error e, _ => .error e
    | _, .error e => .error e

/-- The repeated parameter block of `do_transform` for one of
mean/var/beta/gamma: resolve the operand, require a Const, extract the
value, require shape `(channel_count,)`.  `.inr w` is a warned skip. -/
def fetchParam (G : GraphDef) (node : NodeDef) (channel_count : Nat) (role : String) :
    Except PyErr (Sum (NodeDef × Tensor) String) :=
  match resolveInput G node (inputIdx node.op role) with
  | .error e => .error e
  | .ok p =>
    if p.op ≠ "Const" then
      .ok (.inr ("Did not find expected " ++ role ++ " Constant input to " ++ node.name))
    else
      match values_from_const p with
      | .error e => .error e
      | .ok v =>
        if v.shape ≠ [channel_count] then
          .ok (.inr ("Incorrect shape for " ++ role ++ " for node " ++ node.name))
        else .ok (.inl (p, v))

/-- The multi-index of flat position `f` in a row-major (C-order) array of
the given shape — the `np.nditer` multi_index. -/
def multiIndex : List Nat → Nat → List Nat
  | [], _ => []
  | _ :: ds, f => f / ds.prod :: multiIndex ds (f % ds.prod)

/-- The scale index used by the weight-scaling loop:
`multi_index[3]` for Conv2D, and
`multi_index[2] * channel_multiplier + multi_index[3]` (with
`channel_multiplier = shape[3]`) for DepthwiseConv2dNative. -/
def scaleIndex (convOp : String) (shape : List Nat) (f : Nat) : Nat :=
  let mi := multiIndex shape f
  if convOp = "Conv2D" then mi.getD 3 0
  else mi.getD 2 0 * shape.getD 3 0 + mi.getD 3 0

/-- `scale_value`: `(1.0 / sqrt(var + epsilon)) * gamma` elementwise, or
without the gamma factor when scale-after-normalization is off. -/
def scaleValueOf (sqrt : ℚ → ℚ) (varData gammaData : List ℚ) (eps : ℚ)
    (scaleAfter : Bool) : List ℚ :=
  if scaleAfter then
    List.zipWith (fun v gm => 1 / sqrt (v + eps) * gm) varData gammaData
  else
    varData.map (fun v => 1 / sqrt (v + eps))

/-- `offset_value = (-mean_value * scale_value) + beta_value` elementwise. -/
def offsetValueOf (meanData scaleData betaData : List ℚ) : List ℚ :=
  List.zipWith (fun x bt => x + bt)
    (List.zipWith (fun m sc => -m * sc) meanData scaleData) betaData

/-- The `np.nditer` loop over `scaled_weights`: every element multiplied by
the scale entry selected by `scaleIndex`. -/
def scaledWeightsData (convOp : String) (w : Tensor) (scale : List ℚ) : List ℚ :=
  (List.range w.shape.prod).map
    (fun f => w.data.getD f 0 * scale.getD (scaleIndex convOp w.shape f) 0)

/-- Everything `do_transform` records for one successfully folded match:
the resolved pattern nodes and values, the computed scale/offset, and the
four replacement nodes appended to the output graph. -/
structure FoldMatch where
  bnNode : NodeDef
  convNode : NodeDef
  weightsNode : NodeDef
  meanNode : NodeDef
  varNode : NodeDef
  betaNode : NodeDef
  gammaNode : NodeDef
  weightsValue : Tensor
  meanValue : Tensor
  varValue : Tensor
  betaValue : Tensor
  gammaValue : Tensor
  channelCount : Nat
  eps : ℚ
  scaleValue : List ℚ
  offsetValue : List ℚ
  scaledWeightsNode : NodeDef
  newConvNode : NodeDef
  offsetNode : NodeDef
  biasAddNode : NodeDef
deriving DecidableEq

/-- The names inserted into `nodes_to_skip` for one match. -/
def skipsOf (m : FoldMatch) : List String :=
  [m.bnNode.name, m.weightsNode.name, m.meanNode.name, m.varNode.name,
   m.betaNode.name, m.gammaNode.name, m.convNode.name]

/-- The nodes extended onto `new_ops` for one match, in source order. -/
def newOpsOf (m : FoldMatch) : List NodeDef :=
  [m.scaledWeightsNode, m.newConvNode, m.offsetNode, m.biasAddNode]

/-- Builds the `FoldMatch` for a candidate that passed every validation
check, mirroring the tail of the `do_transform` loop body: epsilon from
the variant attribute, scale and offset values, the rewritten weight
constant (keeping the weight node name), the copied convolution, the
offset constant named `conv.name + "_bn_offset"`, and the BiasAdd taking
the batch-norm node name. -/
def mkFoldMatch (sqrt : ℚ → ℚ) (node conv weights_op mean_op var_op beta_op gamma_op : NodeDef)
    (weights mean_value var_value beta_value gamma_value : Tensor) (cc : Nat) : FoldMatch :=
  let eps := (getAttr node (EPSILON_ATTR node.op)).fVal
  let scale := scaleValueOf sqrt var_value.data gamma_value.data eps (scale_after_normalization node)
  let offset := offsetValueOf mean_value.data scale beta_value.data
  let scaled := scaledWeightsData conv.op weights scale
  { bnNode := node
    convNode := conv
    weightsNode := weights_op
    meanNode := mean_op
    varNode := var_op
    betaNode := beta_op
    gammaNode := gamma_op
    weightsValue := weights
    meanValue := mean_value
    varValue := var_value
    betaValue := beta_value
    gammaValue := gamma_value
    channelCount := cc
    eps := eps
    scaleValue := scale
    offsetValue := offset
    scaledWeightsNode :=
      { name := weights_op.name, op := "Const", input := []
        attr := [("dtype", getAttr weights_op "dtype"),
                 ("value", .tensor ⟨weights.shape, scaled⟩)] }
    newConvNode := conv
    offsetNode :=
      { name := conv.name ++ "_bn_offset", op := "Const", input := []
        attr := [("dtype", getAttr mean_op "dtype"),
                 ("value", .tensor ⟨[cc], offset⟩)] }
    biasAddNode :=
      { name := node.name, op := "BiasAdd"
        input := [conv.name, conv.name ++ "_bn_offset"]
        attr := [("T", getAttr conv "T"),
                 ("data_format", getAttr conv "data_format")] } }

/-- Result of the `do_transform` loop body on one node of the graph. -/
inductive CandidateResult where
  | notCandidate
  | skip (warning : String)
  | matched (m : FoldMatch)
deriving DecidableEq

/-- One iteration of the `do_transform` scan: the full validation chain
for a batch-norm candidate.  `.skip` records a `tf_logging.warning` and
the `continue`; `.error` is a raised exception. -/
def processCandidate (sqrt : ℚ → ℚ) (G : GraphDef) (node : NodeDef) :
    Except PyErr CandidateResult :=
  if node.op = "BatchNormWithGlobalNormalization" ∨ node.op = "FusedBatchNorm" then
    match resolveInput G node (inputIdx node.op "conv_op") with
    | .error e => .error e
    | .ok conv =>
      if conv.op ≠ "Conv2D" ∧ conv.op ≠ "DepthwiseConv2dNative" then
        .ok (.skip ("Did not find expected Conv2D or DepthwiseConv2dNative input to " ++ node.name))
      else
        match resolveInput G conv 1 with
        | .error e => .error e
        | .ok weights_op =>
          if weights_op.op ≠ "Const" then
            .ok (.skip ("Did not find expected conv Constant input to " ++ conv.name))
          else
            match values_from_const weights_op with
            | .error e => .error e
            | .ok weights =>
              match channelCountOf conv.op weights with
              | .error e => .error e
              | .ok channel_count =>
                match fetchParam G node channel_count "mean_op" with
                | .error e => .error e
                | .ok (.inr w) => .ok (.skip w)
                | .ok (.inl (mean_op, mean_value)) =>
                  match fetchParam G node channel_count "var_op" with
                  | .error e => .error e
                  | .ok (.inr w) => .ok (.skip w)
                  | .ok (.inl (var_op, var_value)) =>
                    match fetchParam G node channel_count "beta_op" with
                    | .error e => .error e
                    | .ok (.inr w) => .ok (.skip w)
                    | .ok (.inl (beta_op, beta_value)) =>
                      match fetchParam G node channel_count "gamma_op" with
                      | .error e => .error e
                      | .ok (.inr w) => .ok (.skip w)
                      | .ok (.inl (gamma_op, gamma_value)) =>
                        .ok (.matched (mkFoldMatch sqrt node conv weights_op mean_op
                          var_op beta_op gamma_op weights mean_value var_value
                          beta_value gamma_value channel_count))
  else .ok .notCandidate

/-- The scan of `do_transform` over the node list, accumulating
`nodes_to_skip` and `new_ops`. -/
def processNodes (sqrt : ℚ → ℚ) (G : GraphDef) : List NodeDef → Except PyErr (List String × List NodeDef)
  | [] => .ok ([], [])
  | n :: rest =>
    match processCandidate sqrt G n with
    | .error e => .error e
    | .ok r =>
      match processNodes sqrt G rest with
      | .error e => .error e
      | .ok (skips, ops) =>
        match r with
        | .matched m => .ok (skipsOf m ++ skips, newOpsOf m ++ ops)
        | _ => .ok (skips, ops)

/-- The duplicate-name scan building `input_node_map`: the first node name
seen twice, if any. -/
def firstDuplicate : List String → List String → Option String
  | _, [] => none
  | seen, n :: rest => if n ∈ seen then some n else firstDuplicate (n :: seen) rest

/-- `FoldBatchNormNodes.do_transform`: raise on a duplicate node name,
scan for foldable batch-norm patterns, then emit every non-skipped node
followed by the replacement ops. -/
def do_transform (sqrt : ℚ → ℚ) (input_graph : GraphDef) : Except PyErr GraphDef :=
  match firstDuplicate [] (input_graph.map (fun n => n.name)) with
  | some d => .error (.valueError ("Duplicate node names detected for " ++ d))
  | none =>
    match processNodes sqrt input_graph input_graph with
    | .error e => .error e
    | .ok (skips, new_ops) =>
      .ok (input_graph.filter (fun n => decide (n.name ∉ skips)) ++ new_ops)

/-- A fully validated convolution-to-batch-norm match, exactly the
conditions the `do_transform` loop body checks before folding. -/
structure ValidMatch (g : GraphDef) (node : NodeDef) where
  conv : NodeDef
  weights_op : NodeDef
  weights : Tensor
  cc : Nat
  mean_op : NodeDef
  mean_value : Tensor
  var_op : NodeDef
  var_value : Tensor
  beta_op : NodeDef
  beta_value : Tensor
  gamma_op : NodeDef
  gamma_value : Tensor
  hop : node.op = "BatchNormWithGlobalNormalization" ∨ node.op = "FusedBatchNorm"
  hconv : resolveInput g node (inputIdx node.op "conv_op") = .ok conv
  hconvop : conv.op = "Conv2D" ∨ conv.op = "DepthwiseConv2dNative"
  hweights : resolveInput g conv 1 = .ok weights_op
  hwconst : weights_op.op = "Const"
  hwval : values_from_const weights_op = .ok weights
  hcc : channelCountOf conv.op weights = .ok cc
  hmean : resolveInput g node (inputIdx node.op "mean_op") = .ok mean_op
  hmconst : mean_op.op = "Const"
  hmval : values_from_const mean_op = .ok mean_value
  hmshape : mean_value.shape = [cc]
  hvar : resolveInput g node (inputIdx node.op "var_op") = .ok var_op
  hvconst : var_op.op = "Const"
  hvval : values_from_const var_op = .ok var_value
  hvshape : var_value.shape = [cc]
  hbeta : resolveInput g node (inputIdx node.op "beta_op") = .ok beta_op
  hbconst : beta_op.op = "Const"
  hbval : values_from_const beta_op = .ok beta_value
  hbshape : beta_value.shape = [cc]
  hgamma : resolveInput g node (inputIdx node.op "gamma_op") = .ok gamma_op
  hgconst : gamma_op.op = "Const"
  hgval : values_from_const gamma_op = .ok gamma_value
  hgshape : gamma_value.shape = [cc]

/-- The match `processCandidate` builds from a `ValidMatch`. -/
def ValidMatch.fold {g : GraphDef} {node : NodeDef} (sqrt : ℚ → ℚ)
    (v : ValidMatch g node) : FoldMatch :=
  mkFoldMatch sqrt node v.conv v.weights_op v.mean_op v.var_op v.beta_op v.gamma_op
    v.weights v.mean_value v.var_value v.beta_value v.gamma_value v.cc

/-- True exactly when the candidate outcome is a successful fold. -/
def isMatchedResult : Except PyErr CandidateResult → Bool
  | .ok (.matched _) => true
  | _ => false

/-- True when the candidate outcome neither raised nor folded: the node is
left in place (not a candidate, or a warned skip). -/
def okNotMatched : Except PyErr CandidateResult → Bool
  | .ok .notCandidate => true
  | .ok (.skip _) => true
  | _ => false

/-- The listed validation failures of the claim: the candidate is a
batch-norm op whose preceding op is not a (depthwise-)convolution, or one
of the four normalization parameters is not a Const, or a parameter value
has the wrong shape.  Stated with the same resolution steps the source
performs. -/
def FailsValidationCheck (g : GraphDef) (node : NodeDef) : Prop :=
  (node.op = "BatchNormWithGlobalNormalization" ∨ node.op = "FusedBatchNorm") ∧
  ∃ conv, resolveInput g node (inputIdx node.op "conv_op") = .ok conv ∧
    ((conv.op ≠ "Conv2D" ∧ conv.op ≠ "DepthwiseConv2dNative") ∨
     ((conv.op = "Conv2D" ∨ conv.op = "DepthwiseConv2dNative") ∧
      ∃ weights_op, resolveInput g conv 1 = .ok weights_op ∧
        (weights_op.op ≠ "Const" ∨
         (weights_op.op = "Const" ∧
          ∃ weights cc, values_from_const weights_op = .ok weights ∧
            channelCountOf conv.op weights = .ok cc ∧
            ((∃ w, fetchParam g node cc "mean_op" = .ok (.inr w)) ∨
             (∃ mp mv, fetchParam g node cc "mean_op" = .ok (.inl (mp, mv)) ∧
              ((∃ w, fetchParam g node cc "var_op" = .ok (.inr w)) ∨
               (∃ vp vv, fetchParam g node cc "var_op" = .ok (.inl (vp, vv)) ∧
                ((∃ w, fetchParam g node cc "beta_op" = .ok (.inr w)) ∨
                 (∃ bp bv, fetchParam g node cc "beta_op" = .ok (.inl (bp, bv)) ∧
                  ∃ w, fetchParam g node cc "gamma_op" = .ok (.inr w)))))))))))

end FoldBatchNormNodes

namespace OutputGrabber

/-- `OutputGrabber.escape_char = "\b"` (backspace), the sentinel byte
`stop()` writes to terminate the capture loop. -/
def escape_char : Char := Char.ofNat 8

/-- `OutputGrabber.readOutput`: the pipe-draining loop.  Each list entry
is the data one `os.read` call returns; the loop stops at an empty read
or at a read whose last character is the sentinel, without appending that
final read. -/
def readOutput : List (List Char) → List Char
  | [] => []
  | c :: rest =>
    if c = [] ∨ c.getLast? = some escape_char then []
    else c ++ readOutput rest

/-- The reads are a chunking of the redirected stream: nonempty pieces
whose concatenation is the written text followed by the sentinel that
`stop()` writes and flushes. -/
def IsChunking (written : List Char) (chunks : List (List Char)) : Prop :=
  chunks.flatten = written ++ [escape_char] ∧ ∀ c ∈ chunks, c ≠ []

end OutputGrabber

namespace GraphConverter

/-- `GraphConverter._parse_output`: assert an even number of delimiter
characters, take every other semicolon position, and cut the capture into
stripped records; `semicolon_index[-1]` raises IndexError when the
position list is empty. -/
def everyOther : List α → List α
  | [] => []
  | [a] => [a]
  | a :: _ :: rest => a :: everyOther rest

/-- Python `str.strip`: drop whitespace from both ends. -/
def pyStrip (l : List Char) : List Char :=
  ((l.dropWhile Char.isWhitespace).reverse.dropWhile Char.isWhitespace).reverse

/-- Indices of every semicolon in the captured text. -/
def semicolonIndices (l : List Char) : List Nat :=
  (l.enum.filter (fun p => p.2 == ';')).map (fun p => p.1)

/-- The record slices `input_data[value : next]` (stripped, newline
appended) walked over consecutive retained semicolon positions, plus the
final slice to the end of the text. -/
def segmentsFrom (input : List Char) : List Nat → List (List Char)
  | [] => []
  | [i] => [pyStrip (input.drop i) ++ ['\n']]
  | i :: j :: rest => (pyStrip ((input.drop i).take (j - i)) ++ ['\n']) :: segmentsFrom input (j :: rest)

/-- `GraphConverter._parse_output` over the captured text, returning the
records it appends to `output_data` or the exception it raises. -/
def parse_output (input_data : List Char) : Except PyErr (List (List Char)) :=
  if input_data.count ';' % 2 ≠ 0 then .error .assertionError
  else
    match everyOther (semicolonIndices input_data) with
    | [] => .error .indexError
    | i :: rest => .ok (segmentsFrom input_data (i :: rest))

/-- The fixed basename of the temporary logged-graph file
(`_gen_tmp_filenames` / `_post_clean`). -/
def int8LoggedGraphName : String := "int8_logged_graph.pb"

/-- The converter state the modelled methods touch: the in-memory pipeline
graph `_tmp_graph_def` and the files written so far. -/
structure ConverterState where
  tmpGraphDef : GraphDef
  files : List (String × GraphDef)
deriving DecidableEq

/-- `GraphConverter._insert_logging`.  The three
`InsertLogging(...).do_transformation()` calls mutate the pipeline graph
in place; their effect is abstract here (`insert_logging.py` is outside
the modelled sources), so each is an arbitrary graph transformation
parameter.  The method saves a copy of `_tmp_graph_def`, instruments it,
writes the instrumented graph to the logged-graph file, and restores
`_tmp_graph_def` from the copy. -/
def insert_logging (requantLog minLog maxLog : GraphDef → GraphDef)
    (st : ConverterState) : ConverterState :=
  let saved := st.tmpGraphDef
  let g1 := requantLog st.tmpGraphDef
  let g2 := minLog g1
  let g3 := maxLog g2
  { tmpGraphDef := saved
    files := st.files ++ [(int8LoggedGraphName, g3)] }

/-- `GraphConverter._post_clean`: delete the temporary logged-graph file
when it exists. -/
def post_clean (files : List (String × GraphDef)) : List (String × GraphDef) :=
  files.filter (fun p => decide (p.1 ≠ int8LoggedGraphName))

/-- What a call of `GraphConverter.quantize` produces: the context-wrapped
message passed to `logging.error`, the ValueError the except clause
re-raises (pending when the finally block runs), the files left on disk,
and what the caller actually receives. -/
structure QuantizeOutcome where
  loggedError : Option String
  pendingException : Option String
  finalFiles : List (String × GraphDef)
  returned : Except String GraphDef

/-- Python semantics of a `finally` block that executes a `return`
statement: the returned value supersedes any pending exception, which is
discarded. -/
def pyFinallyReturn (pending : Option String) (ret : GraphDef) : Except String GraphDef :=
  .ok ret

/-- `GraphConverter.quantize`: the try block runs the quantization steps
(summarised as the state they reach and the exception they raise, if
any); the except clause logs `Failed to quantize graph due to: ...` and
re-raises a ValueError; the finally block calls `_post_clean` (unless
debugging) and ends in `return graph`, importing `_tmp_graph_def`. -/
def quantize (debug : Bool) (bodyExn : Option String) (st : ConverterState) :
    QuantizeOutcome :=
  let logged := bodyExn.map (fun e => "Failed to quantize graph due to: " ++ e)
  let pending := bodyExn
  let files1 := if debug then st.files else post_clean st.files
  { loggedError := logged
    pendingException := pending
    finalFiles := files1
    returned := pyFinallyReturn pending st.tmpGraphDef }

end GraphConverter

/-! ### Test fixture: a one-convolution graph with a foldable FusedBatchNorm -/

/-- Rank-4 convolution weights of shape 1x1x1x2. -/
def exT : Tensor := ⟨[1, 1, 1, 2], [10, 100]⟩

/-- Placeholder feeding the convolution. -/
def exX : NodeDef := ⟨"x", "Placeholder", [], []⟩

/-- The weight constant. -/
def exW : NodeDef := ⟨"w", "Const", [], [("dtype", .type 1), ("value", .tensor exT)]⟩

/-- Moving-mean constant of shape (2,). -/
def exMean : NodeDef := ⟨"mu", "Const", [], [("dtype", .type 1), ("value", .tensor ⟨[2], [1, 2]⟩)]⟩

/-- Moving-variance constant of shape (2,). -/
def exVar : NodeDef := ⟨"va", "Const", [], [("value", .tensor ⟨[2], [4, 9]⟩)]⟩

/-- Beta constant of shape (2,). -/
def exBeta : NodeDef := ⟨"be", "Const", [], [("value", .tensor ⟨[2], [5, 6]⟩)]⟩

/-- Gamma constant of shape (2,). -/
def exGamma : NodeDef := ⟨"ga", "Const", [], [("value", .tensor ⟨[2], [2, 3]⟩)]⟩

/-- The convolution consuming the placeholder and the weights. -/
def exConv : NodeDef := ⟨"conv", "Conv2D", ["x", "w"], [("T", .type 1), ("data_format", .s "NHWC")]⟩

/-- The FusedBatchNorm consuming the convolution and the four parameters
in variant order conv, gamma, beta, mean, var. -/
def exBN : NodeDef := ⟨"bn", "FusedBatchNorm", ["conv", "ga", "be", "mu", "va"], [("epsilon", .f 0)]⟩

/-- The fixture graph. -/
def exGraph : GraphDef := [exX, exW, exMean, exVar, exBeta, exGamma, exConv, exBN]

/-- The fixture match: every validation condition of the fold holds. -/
def exValid : FoldBatchNormNodes.ValidMatch exGraph exBN where
  conv := exConv
  weights_op := exW
  weights := exT
  cc := 2
  mean_op := exMean
  mean_value := ⟨[2], [1, 2]⟩
  var_op := exVar
  var_value := ⟨[2], [4, 9]⟩
  beta_op := exBeta
  beta_value := ⟨[2], [5, 6]⟩
  gamma_op := exGamma
  gamma_value := ⟨[2], [2, 3]⟩
  hop := Or.inr rfl
  hconv := by decide
  hconvop := Or.inl rfl
  hweights := by decide
  hwconst := rfl
  hwval := by decide
  hcc := by decide
  hmean := by decide
  hmconst := rfl
  hmval := by decide
  hmshape := rfl
  hvar := by decide
  hvconst := rfl
  hvval := by decide
  hvshape := rfl
  hbeta := by decide
  hbconst := rfl
  hbval := by decide
  hbshape := rfl
  hgamma := by decide
  hgconst := rfl
  hgval := by decide
  hgshape := rfl

/-- A FusedBatchNorm whose convolution operand name resolves to no node:
`node_from_map` raises on it. -/
def exBNMissing : NodeDef := ⟨"bn", "FusedBatchNorm", ["missing", "g", "b", "m", "v"], []⟩

/-- A Relu standing where the fold expects a convolution. -/
def exRelu : NodeDef := ⟨"r", "Relu", ["x"], []⟩

/-- A FusedBatchNorm candidate whose preceding op is the Relu: the
op-kind validation check fails. -/
def exBNRelu : NodeDef := ⟨"bn2", "FusedBatchNorm", ["r", "ga", "be", "mu", "va"], []⟩

/-- Fixture graph for the skipped-candidate witness. -/
def exGraph2 : GraphDef := [exRelu, exBNRelu]

/-- A second gamma constant of shape (2,) with different values. -/
def exGamma2 : NodeDef := ⟨"ga2", "Const", [], [("value", .tensor ⟨[2], [4, 5]⟩)]⟩

/-- A second FusedBatchNorm consuming the same convolution as `exBN`
(sharing its weights and three of its parameters, with its own gamma). -/
def exBN2 : NodeDef := ⟨"bn2", "FusedBatchNorm", ["conv", "ga2", "be", "mu", "va"], [("epsilon", .f 0)]⟩

/-- A graph in which two batch-norm nodes share one convolution: the
fold processes both candidates as valid matches. -/
def exGraphD : GraphDef :=
  [exX, exW, exMean, exVar, exBeta, exGamma, exGamma2, exConv, exBN, exBN2]

/-- The first valid match of the shared-convolution graph. -/
def exValidD1 : FoldBatchNormNodes.ValidMatch exGraphD exBN where
  conv := exConv
  weights_op := exW
  weights := exT
  cc := 2
  mean_op := exMean
  mean_value := ⟨[2], [1, 2]⟩
  var_op := exVar
  var_value := ⟨[2], [4, 9]⟩
  beta_op := exBeta
  beta_value := ⟨[2], [5, 6]⟩
  gamma_op := exGamma
  gamma_value := ⟨[2], [2, 3]⟩
  hop := Or.inr rfl
  hconv := by decide
  hconvop := Or.inl rfl
  hweights := by decide
  hwconst := rfl
  hwval := by decide
  hcc := by decide
  hmean := by decide
  hmconst := rfl
  hmval := by decide
  hmshape := rfl
  hvar := by decide
  hvconst := rfl
  hvval := by decide
  hvshape := rfl
  hbeta := by decide
  hbconst := rfl
  hbval := by decide
  hbshape := rfl
  hgamma := by decide
  hgconst := rfl
  hgval := by decide
  hgshape := rfl

/-- The second valid match of the shared-convolution graph: same
convolution and weights, its own gamma. -/
def exValidD2 : FoldBatchNormNodes.ValidMatch exGraphD exBN2 where
  conv := exConv
  weights_op := exW
  weights := exT
  cc := 2
  mean_op := exMean
  mean_value := ⟨[2], [1, 2]⟩
  var_op := exVar
  var_value := ⟨[2], [4, 9]⟩
  beta_op := exBeta
  beta_value := ⟨[2], [5, 6]⟩
  gamma_op := exGamma2
  gamma_value := ⟨[2], [4, 5]⟩
  hop := Or.inr rfl
  hconv := by decide
  hconvop := Or.inl rfl
  hweights := by decide
  hwconst := rfl
  hwval := by decide
  hcc := by decide
  hmean := by decide
  hmconst := rfl
  hmval := by decide
  hmshape := rfl
  hvar := by decide
  hvconst := rfl
  hvval := by decide
  hvshape := rfl
  hbeta := by decide
  hbconst := rfl
  hbval := by decide
  hbshape := rfl
  hgamma := by decide
  hgconst := rfl
  hgval := by decide
  hgshape := rfl

/-! ### Helper lemmas -/

namespace FoldBatchNormNodes

theorem getD_zipWith {α β γ} (f : α → β → γ) (d : γ) (d1 : α) (d2 : β) :
    ∀ (l1 : List α) (l2 : List β) (i : Nat),
      i < (List.zipWith f l1 l2).length →
      (List.zipWith f l1 l2).getD i d = f (l1.getD i d1) (l2.getD i d2) := by
  intro l1
  induction l1 with
  | nil => intro l2 i h; simp at h
  | cons a l1 ih =>
    intro l2 i h
    cases l2 with
    | nil => simp at h
    | cons b l2 =>
      cases i with
      | zero => rfl
      | succ n =>
        simp only [List.zipWith_cons_cons, List.getD_cons_succ]
        exact ih l2 n (by simpa using h)

theorem getD_map {α β} (f : α → β) (d : β) (d1 : α) :
    ∀ (l : List α) (i : Nat), i < l.length →
      (l.map f).getD i d = f (l.getD i d1) := by
  intro l
  induction l with
  | nil => intro i h; simp at h
  | cons a l ih =>
    intro i h
    cases i with
    | zero => rfl
    | succ n =>
      simp only [List.map_cons, List.getD_cons_succ]
      exact ih n (by simpa using h)

theorem getD_map_range {α} (f : Nat → α) (d : α) {n i : Nat} (h : i < n) :
    ((List.range n).map f).getD i d = f i := by
  rw [List.getD_eq_getElem?_getD, List.getElem?_map, List.getElem?_range h]
  rfl

theorem multiIndex_four (a b c d f : Nat) :
    multiIndex [a, b, c, d] f =
      [f / (b * (c * d)), f % (b * (c * d)) / (c * d), f % (c * d) / d, f % d] := by
  have h1 : f % (b * (c * d)) % (c * d) = f % (c * d) :=
    Nat.mod_mod_of_dvd f (dvd_mul_left (c * d) b)
  have h2 : f % (c * d) % d = f % d := Nat.mod_mod_of_dvd f (dvd_mul_left d c)
  simp [multiIndex, List.prod_cons, List.prod_nil, mul_one, h1, h2]

theorem scaleIndex_four (convOp : String) (a b c d f : Nat) :
    scaleIndex convOp [a, b, c, d] f =
      if convOp = "Conv2D" then f % d else f / d % c * d + f % d := by
  unfold scaleIndex
  rw [multiIndex_four]
  by_cases h : convOp = "Conv2D"
  · simp [h]
  · have hq : f % (c * d) / d = f / d % c := by
      rw [mul_comm]
      exact Nat.mod_mul_right_div_self f d c
    simp [h, hq]

theorem length_four_eq {l : List Nat} (h : l.length = 4) :
    ∃ a b c d, l = [a, b, c, d] := by
  rcases l with _ | ⟨a, _ | ⟨b, _ | ⟨c, _ | ⟨d, _ | ⟨e, tl⟩⟩⟩⟩⟩ <;> simp_all

theorem fetchParam_valid {G : GraphDef} {node p : NodeDef} {t : Tensor} {cc : Nat} {role : String}
    (h1 : resolveInput G node (inputIdx node.op role) = .ok p)
    (h2 : p.op = "Const") (h3 : values_from_const p = .ok t)
    (h4 : t.shape = [cc]) :
    fetchParam G node cc role = .ok (.inl (p, t)) := by
  simp only [fetchParam, h1, h3]
  rw [if_neg (by simp [h2]), if_neg (by simp [h4])]

theorem processCandidate_valid {g : GraphDef} {node : NodeDef} (sqrt : ℚ → ℚ)
    (v : ValidMatch g node) :
    processCandidate sqrt g node = .ok (.matched (v.fold sqrt)) := by
  have hconvop : ¬(v.conv.op ≠ "Conv2D" ∧ v.conv.op ≠ "DepthwiseConv2dNative") := by
    rcases v.hconvop with h | h <;> simp [h]
  have hwc : ¬(v.weights_op.op ≠ "Const") := by simp [v.hwconst]
  simp only [processCandidate, if_pos v.hop, v.hconv, if_neg hconvop, v.hweights,
    if_neg hwc, v.hwval, v.hcc,
    fetchParam_valid v.hmean v.hmconst v.hmval v.hmshape,
    fetchParam_valid v.hvar v.hvconst v.hvval v.hvshape,
    fetchParam_valid v.hbeta v.hbconst v.hbval v.hbshape,
    fetchParam_valid v.hgamma v.hgconst v.hgval v.hgshape]
  rfl

end FoldBatchNormNodes

/-! ### Claim C1 -/

/-- Claim C1: for every valid convolution-to-batch-norm match folded by
`FoldBatchNormNodes.do_transform` (the per-candidate body
`processCandidate`), the computed per-channel scale equals
`gamma / sqrt(var + epsilon)` (the gamma factor omitted when the variant
scale-after-normalization flag is false), the offset equals
`beta - mean * scale`, and the rewritten weight constant holds the
original weights multiplied elementwise by the scale entry of the output
channel: index `f % shape[3]` along the last axis of the rank-4 weights
for Conv2D, and input-channel-index times channel-multiplier plus
multiplier-index, `(f / shape[3] % shape[2]) * shape[3] + f % shape[3]`,
for DepthwiseConv2dNative.  Exact rational arithmetic stands in for
float arithmetic, with an abstract `sqrt`. -/
theorem fold_scale_offset_scaled_weights
    (sqrt : ℚ → ℚ) {g : GraphDef} {node : NodeDef}
    (v : FoldBatchNormNodes.ValidMatch g node)
    (hw4 : v.weights.shape.length = 4) :
    FoldBatchNormNodes.processCandidate sqrt g node = .ok (.matched (v.fold sqrt)) ∧
    (∀ i, i < (v.fold sqrt).scaleValue.length →
      (v.fold sqrt).scaleValue.getD i 0 =
        (if FoldBatchNormNodes.scale_after_normalization node then
          v.gamma_value.data.getD i 0 else 1) /
          sqrt (v.var_value.data.getD i 0 + (v.fold sqrt).eps)) ∧
    (∀ i, i < (v.fold sqrt).offsetValue.length →
      (v.fold sqrt).offsetValue.getD i 0 =
        v.beta_value.data.getD i 0 -
          v.mean_value.data.getD i 0 * (v.fold sqrt).scaleValue.getD i 0) ∧
    (getAttr (v.fold sqrt).scaledWeightsNode "value").tensorVal.shape = v.weights.shape ∧
    (getAttr (v.fold sqrt).scaledWeightsNode "value").tensorVal.data.length
      = v.weights.shape.prod ∧
    (∀ f, f < v.weights.shape.prod →
      (getAttr (v.fold sqrt).scaledWeightsNode "value").tensorVal.data.getD f 0 =
        v.weights.data.getD f 0 *
          (v.fold sqrt).scaleValue.getD
            (if v.conv.op = "Conv2D" then f % v.weights.shape.getD 3 0
             else f / v.weights.shape.getD 3 0 % v.weights.shape.getD 2 0
                    * v.weights.shape.getD 3 0 + f % v.weights.shape.getD 3 0) 0) := by
  obtain ⟨a, b, c, d, hsh⟩ := FoldBatchNormNodes.length_four_eq hw4
  have hscale : (v.fold sqrt).scaleValue =
      FoldBatchNormNodes.scaleValueOf sqrt v.var_value.data v.gamma_value.data
        (v.fold sqrt).eps (FoldBatchNormNodes.scale_after_normalization node) := rfl
  have hoffv : (v.fold sqrt).offsetValue =
      FoldBatchNormNodes.offsetValueOf v.mean_value.data (v.fold sqrt).scaleValue
        v.beta_value.data := rfl
  have hvat : (getAttr (v.fold sqrt).scaledWeightsNode "value").tensorVal =
      ⟨v.weights.shape,
       FoldBatchNormNodes.scaledWeightsData v.conv.op v.weights (v.fold sqrt).scaleValue⟩ := rfl
  refine ⟨FoldBatchNormNodes.processCandidate_valid sqrt v, ?_, ?_, ?_, ?_, ?_⟩
  · intro i hi
    rw [hscale] at hi ⊢
    unfold FoldBatchNormNodes.scaleValueOf at hi ⊢
    by_cases hs : FoldBatchNormNodes.scale_after_normalization node = true
    · rw [if_pos hs] at hi ⊢
      rw [FoldBatchNormNodes.getD_zipWith _ 0 0 0 _ _ i hi, if_pos hs,
        one_div_mul_eq_div]
    · rw [if_neg hs] at hi ⊢
      rw [FoldBatchNormNodes.getD_map _ 0 0 _ i (by simpa using hi), if_neg hs]
  · intro i hi
    rw [hoffv] at hi ⊢
    unfold FoldBatchNormNodes.offsetValueOf at hi ⊢
    have hiouter := hi
    rw [List.length_zipWith] at hi
    have hi2 : i < (List.zipWith (fun m sc => -m * sc) v.mean_value.data
        (v.fold sqrt).scaleValue).length :=
      lt_of_lt_of_le hi (min_le_left _ _)
    rw [FoldBatchNormNodes.getD_zipWith _ 0 0 0 _ _ i hiouter,
        FoldBatchNormNodes.getD_zipWith _ 0 0 0 _ _ i hi2]
    ring
  · rw [hvat]
  · rw [hvat]
    simp [FoldBatchNormNodes.scaledWeightsData]
  · intro f hf
    have hgd : (getAttr (v.fold sqrt).scaledWeightsNode "value").tensorVal.data =
        FoldBatchNormNodes.scaledWeightsData v.conv.op v.weights (v.fold sqrt).scaleValue := by
      rw [hvat]
    rw [hgd]
    unfold FoldBatchNormNodes.scaledWeightsData
    rw [FoldBatchNormNodes.getD_map_range _ 0 hf]
    have hidx : FoldBatchNormNodes.scaleIndex v.conv.op v.weights.shape f =
        (if v.conv.op = "Conv2D" then f % v.weights.shape.getD 3 0
         else f / v.weights.shape.getD 3 0 % v.weights.shape.getD 2 0
                * v.weights.shape.getD 3 0 + f % v.weights.shape.getD 3 0) := by
      rw [hsh, FoldBatchNormNodes.scaleIndex_four]
      by_cases hc : v.conv.op = "Conv2D" <;> simp [hc]
    rw [hidx]

/-- Witness for claim C1: the fixture FusedBatchNorm match, with the
identity standing in for sqrt. -/
theorem fold_scale_offset_scaled_weights_witness :
    FoldBatchNormNodes.processCandidate id exGraph exBN = .ok (.matched (exValid.fold id)) ∧
    (∀ i, i < (exValid.fold id).scaleValue.length →
      (exValid.fold id).scaleValue.getD i 0 =
        (if FoldBatchNormNodes.scale_after_normalization exBN then
          exValid.gamma_value.data.getD i 0 else 1) /
          id (exValid.var_value.data.getD i 0 + (exValid.fold id).eps)) ∧
    (∀ i, i < (exValid.fold id).offsetValue.length →
      (exValid.fold id).offsetValue.getD i 0 =
        exValid.beta_value.data.getD i 0 -
          exValid.mean_value.data.getD i 0 * (exValid.fold id).scaleValue.getD i 0) ∧
    (getAttr (exValid.fold id).scaledWeightsNode "value").tensorVal.shape = exValid.weights.shape ∧
    (getAttr (exValid.fold id).scaledWeightsNode "value").tensorVal.data.length
      = exValid.weights.shape.prod ∧
    (∀ f, f < exValid.weights.shape.prod →
      (getAttr (exValid.fold id).scaledWeightsNode "value").tensorVal.data.getD f 0 =
        exValid.weights.data.getD f 0 *
          (exValid.fold id).scaleValue.getD
            (if exValid.conv.op = "Conv2D" then f % exValid.weights.shape.getD 3 0
             else f / exValid.weights.shape.getD 3 0 % exValid.weights.shape.getD 2 0
                    * exValid.weights.shape.getD 3 0 + f % exValid.weights.shape.getD 3 0) 0) :=
  fold_scale_offset_scaled_weights id exValid (by decide)

namespace FoldBatchNormNodes

theorem firstDuplicate_none {l : List String} :
    ∀ seen, firstDuplicate seen l = none → l.Nodup ∧ ∀ x ∈ l, x ∉ seen := by
  induction l with
  | nil => intro seen _; exact ⟨List.nodup_nil, by simp⟩
  | cons n rest ih =>
    intro seen h
    unfold firstDuplicate at h
    by_cases hn : n ∈ seen
    · rw [if_pos hn] at h; cases h
    · rw [if_neg hn] at h
      obtain ⟨hnd, hmem⟩ := ih (n :: seen) h
      refine ⟨List.nodup_cons.mpr ⟨?_, hnd⟩, ?_⟩
      · intro hmemr
        exact (hmem n hmemr) (List.mem_cons_self n seen)
      · intro x hx
        rcases List.mem_cons.mp hx with rfl | hx'
        · exact hn
        · intro hxs
          exact hmem x hx' (List.mem_cons_of_mem _ hxs)

theorem firstDuplicate_of_nodup {l : List String} :
    ∀ seen, l.Nodup → (∀ x ∈ l, x ∉ seen) → firstDuplicate seen l = none := by
  induction l with
  | nil => intro seen _ _; rfl
  | cons n rest ih =>
    intro seen hnd hdis
    have hn : n ∉ seen := hdis n (List.mem_cons_self n rest)
    unfold firstDuplicate
    rw [if_neg hn]
    refine ih (n :: seen) (List.nodup_cons.mp hnd).2 ?_
    intro x hx
    intro hmem
    rcases List.mem_cons.mp hmem with rfl | hxs
    · exact (List.nodup_cons.mp hnd).1 hx
    · exact hdis x (List.mem_cons_of_mem _ hx) hxs

theorem firstDuplicate_some {l : List String} :
    ∀ seen d, firstDuplicate seen l = some d → 2 ≤ l.count d ∨ (d ∈ seen ∧ d ∈ l) := by
  induction l with
  | nil => intro seen d h; cases h
  | cons n rest ih =>
    intro seen d h
    unfold firstDuplicate at h
    by_cases hn : n ∈ seen
    · rw [if_pos hn] at h
      injection h with h
      subst h
      exact Or.inr ⟨hn, List.mem_cons_self _ _⟩
    · rw [if_neg hn] at h
      rcases ih (n :: seen) d h with hc | ⟨hds, hdl⟩
      · left
        rw [List.count_cons]
        omega
      · rcases List.mem_cons.mp hds with rfl | hseen
        · left
          rw [List.count_cons_self]
          have h1 : 1 ≤ rest.count d := List.one_le_count_iff.mpr hdl
          omega
        · exact Or.inr ⟨hseen, List.mem_cons_of_mem _ hdl⟩

theorem processNodes_of_none_matched (sqrt : ℚ → ℚ) (G : GraphDef) :
    ∀ l : List NodeDef, (∀ x ∈ l, okNotMatched (processCandidate sqrt G x) = true) →
      processNodes sqrt G l = .ok ([], []) := by
  intro l
  induction l with
  | nil => intro _; rfl
  | cons n rest ih =>
    intro h
    have hn := h n (List.mem_cons_self n rest)
    have hrest := ih (fun x hx => h x (List.mem_cons_of_mem _ hx))
    cases hc : processCandidate sqrt G n with
    | error e => rw [hc] at hn; simp [okNotMatched] at hn
    | ok r =>
      cases r with
      | matched m => rw [hc] at hn; simp [okNotMatched] at hn
      | notCandidate =>
        show processNodes sqrt G (n :: rest) = .ok ([], [])
        unfold processNodes
        rw [hc, hrest]
      | skip w =>
        show processNodes sqrt G (n :: rest) = .ok ([], [])
        unfold processNodes
        rw [hc, hrest]

theorem processNodes_cons (sqrt : ℚ → ℚ) (G : GraphDef) (n : NodeDef) (rest : List NodeDef) :
    processNodes sqrt G (n :: rest) =
      match processCandidate sqrt G n with
      | .error e => .error e
      | .ok r =>
        match processNodes sqrt G rest with
        | .error e => .error e
        | .ok (skips, ops) =>
          match r with
          | .matched m => .ok (skipsOf m ++ skips, newOpsOf m ++ ops)
          | _ => .ok (skips, ops) := rfl

theorem processNodes_skip_middle (sqrt : ℚ → ℚ) (G : GraphDef) (node : NodeDef) (w : String)
    (h : processCandidate sqrt G node = .ok (.skip w)) :
    ∀ l1 l2, processNodes sqrt G (l1 ++ node :: l2) = processNodes sqrt G (l1 ++ l2) := by
  intro l1
  induction l1 with
  | nil =>
    intro l2
    show processNodes sqrt G (node :: l2) = processNodes sqrt G l2
    rw [processNodes_cons, h]
    cases hrest : processNodes sqrt G l2 with
    | error e => rfl
    | ok p => cases p; rfl
  | cons a l1 ih =>
    intro l2
    show processNodes sqrt G (a :: (l1 ++ node :: l2)) = processNodes sqrt G (a :: (l1 ++ l2))
    rw [processNodes_cons sqrt G a (l1 ++ node :: l2),
        processNodes_cons sqrt G a (l1 ++ l2), ih l2]

end FoldBatchNormNodes

/-! ### Claim C5 -/

/-- Claim C5: every batch-norm candidate failing a listed validation
check (the preceding op is not a (depthwise-)convolution, a parameter is
not a Const, or a parameter value has the wrong shape) is skipped with a
recorded warning, and the scan continues over the remaining nodes: the
candidate contributes nothing and raises nothing. -/
theorem fold_skips_invalid_candidate (sqrt : ℚ → ℚ) {g : GraphDef} {node : NodeDef}
    (hf : FoldBatchNormNodes.FailsValidationCheck g node) :
    (∃ w, FoldBatchNormNodes.processCandidate sqrt g node = .ok (.skip w)) ∧
    ∀ l1 l2, FoldBatchNormNodes.processNodes sqrt g (l1 ++ node :: l2) =
      FoldBatchNormNodes.processNodes sqrt g (l1 ++ l2) := by
  obtain ⟨w, hw⟩ : ∃ w, FoldBatchNormNodes.processCandidate sqrt g node = .ok (.skip w) := by
    obtain ⟨hop, conv, hconv, hrest⟩ := hf
    rcases hrest with ⟨h1, h2⟩ | ⟨hconvop, weights_op, hwo, hrest2⟩
    · refine ⟨"Did not find expected Conv2D or DepthwiseConv2dNative input to " ++ node.name, ?_⟩
      simp only [FoldBatchNormNodes.processCandidate, if_pos hop, hconv]
      rw [if_pos ⟨h1, h2⟩]
    · have hcond : ¬(conv.op ≠ "Conv2D" ∧ conv.op ≠ "DepthwiseConv2dNative") := by
        rcases hconvop with h | h <;> simp [h]
      rcases hrest2 with hnc | ⟨hwc, weights, cc, hwv, hcc, hparam⟩
      · refine ⟨"Did not find expected conv Constant input to " ++ conv.name, ?_⟩
        simp only [FoldBatchNormNodes.processCandidate, if_pos hop, hconv,
          if_neg hcond, hwo]
        rw [if_pos hnc]
      · have hwneg : ¬(weights_op.op ≠ "Const") := by simp [hwc]
        rcases hparam with ⟨w, hmw⟩ | ⟨mp, mv, hm, hparam2⟩
        · refine ⟨w, ?_⟩
          simp only [FoldBatchNormNodes.processCandidate, if_pos hop, hconv,
            if_neg hcond, hwo, if_neg hwneg, hwv, hcc, hmw]
        · rcases hparam2 with ⟨w, hvw⟩ | ⟨vp, vv, hv, hparam3⟩
          · refine ⟨w, ?_⟩
            simp only [FoldBatchNormNodes.processCandidate, if_pos hop, hconv,
              if_neg hcond, hwo, if_neg hwneg, hwv, hcc, hm, hvw]
          · rcases hparam3 with ⟨w, hbw⟩ | ⟨bp, bv, hb, w, hgw⟩
            · refine ⟨w, ?_⟩
              simp only [FoldBatchNormNodes.processCandidate, if_pos hop, hconv,
                if_neg hcond, hwo, if_neg hwneg, hwv, hcc, hm, hv, hbw]
            · refine ⟨w, ?_⟩
              simp only [FoldBatchNormNodes.processCandidate, if_pos hop, hconv,
                if_neg hcond, hwo, if_neg hwneg, hwv, hcc, hm, hv, hb, hgw]
  exact ⟨⟨w, hw⟩, FoldBatchNormNodes.processNodes_skip_middle sqrt g node w hw⟩

/-- Witness for claim C5: a FusedBatchNorm preceded by a Relu is skipped
with a warning and the scan goes on. -/
theorem fold_skips_invalid_candidate_witness :
    (∃ w, FoldBatchNormNodes.processCandidate id exGraph2 exBNRelu = .ok (.skip w)) ∧
    ∀ l1 l2, FoldBatchNormNodes.processNodes id exGraph2 (l1 ++ exBNRelu :: l2) =
      FoldBatchNormNodes.processNodes id exGraph2 (l1 ++ l2) :=
  fold_skips_invalid_candidate id
    ⟨Or.inr rfl, exRelu, by decide, Or.inl (by decide)⟩

/-! ### Claim C7 -/

/-- Claim C7: a graph with a repeated node name makes `do_transform`
raise the duplicate-name ValueError carrying a name that indeed occurs
at least twice, and no rewritten graph is produced. -/
theorem do_transform_duplicate_names_error (sqrt : ℚ → ℚ) (g : GraphDef)
    (hdup : ¬ (g.map (fun n => n.name)).Nodup) :
    ∃ d, FoldBatchNormNodes.do_transform sqrt g =
        .error (.valueError ("Duplicate node names detected for " ++ d)) ∧
      2 ≤ (g.map (fun n => n.name)).count d := by
  cases hfd : FoldBatchNormNodes.firstDuplicate [] (g.map fun n => n.name) with
  | none =>
    exact absurd (FoldBatchNormNodes.firstDuplicate_none [] hfd).1 hdup
  | some d =>
    refine ⟨d, ?_, ?_⟩
    · unfold FoldBatchNormNodes.do_transform
      rw [hfd]
    · rcases FoldBatchNormNodes.firstDuplicate_some [] d hfd with h | ⟨hs, _⟩
      · exact h
      · simp at hs

/-- Witness for claim C7: the two-copies graph. -/
theorem do_transform_duplicate_names_error_witness :
    ∃ d, FoldBatchNormNodes.do_transform id [exX, exX] =
        .error (.valueError ("Duplicate node names detected for " ++ d)) ∧
      2 ≤ (([exX, exX] : GraphDef).map (fun n => n.name)).count d :=
  do_transform_duplicate_names_error id [exX, exX] (by decide)

/-! ### Claim C8 -/

/-- Counterexample to claim C8 as stated: a graph whose only node is a
FusedBatchNorm with no valid convolution pattern (its first operand name
resolves to nothing).  The claim premises hold — names are unique and no
node folds — yet `do_transform` raises a missing-node ValueError instead
of returning the graph unchanged. -/
theorem fold_noop_counterexample :
    (([exBNMissing] : GraphDef).map (fun n => n.name)).Nodup ∧
    (∀ n ∈ ([exBNMissing] : GraphDef),
      FoldBatchNormNodes.isMatchedResult
        (FoldBatchNormNodes.processCandidate id [exBNMissing] n) = false) ∧
    FoldBatchNormNodes.do_transform id [exBNMissing] ≠ .ok [exBNMissing] := by
  decide

/-- Claim C8 (amended): a graph with unique node names in which no
candidate folds and no candidate raises (every node is either not a
batch-norm candidate or a warned skip) is returned by `do_transform`
unchanged. -/
theorem fold_noop_when_no_match (sqrt : ℚ → ℚ) (g : GraphDef)
    (hnodup : (g.map (fun n => n.name)).Nodup)
    (hok : ∀ n ∈ g, FoldBatchNormNodes.okNotMatched
      (FoldBatchNormNodes.processCandidate sqrt g n) = true) :
    FoldBatchNormNodes.do_transform sqrt g = .ok g := by
  unfold FoldBatchNormNodes.do_transform
  rw [FoldBatchNormNodes.firstDuplicate_of_nodup [] hnodup (by simp)]
  rw [FoldBatchNormNodes.processNodes_of_none_matched sqrt g g hok]
  have hfil : g.filter (fun n => decide (n.name ∉ ([] : List String))) = g :=
    List.filter_eq_self.mpr (by intro a _; simp)
  show Except.ok (g.filter (fun n => decide (n.name ∉ ([] : List String))) ++ []) = Except.ok g
  rw [hfil, List.append_nil]

/-- Witness for the amended claim C8: a convolution-only graph is left
untouched. -/
theorem fold_noop_when_no_match_witness :
    FoldBatchNormNodes.do_transform id [exX, exRelu] = .ok [exX, exRelu] :=
  fold_noop_when_no_match id [exX, exRelu] (by decide) (by decide)

/-! ### Claim C9 -/

namespace FoldBatchNormNodes

theorem takeWhile_append_all {p : Char → Bool} :
    ∀ (l1 l2 : List Char), (∀ c ∈ l1, p c = true) →
      (l1 ++ l2).takeWhile p = l1 ++ l2.takeWhile p := by
  intro l1
  induction l1 with
  | nil => intro l2 _; simp
  | cons a l1 ih =>
    intro l2 h
    have ha := h a (List.mem_cons_self _ _)
    simp only [List.cons_append, List.takeWhile_cons, ha, if_pos]
    rw [ih l2 (fun c hc => h c (List.mem_cons_of_mem _ hc))]

theorem stripCaret_of_head {l : List Char} (h : l.head? ≠ some '^') :
    stripCaret l = l := by
  cases l with
  | nil => rfl
  | cons c rest =>
    have hc : ¬ c = '^' := by
      intro he
      exact h (by rw [he]; rfl)
    simp [stripCaret, hc]

theorem stripSlotSuffix_append_digits (s d : List Char)
    (hd : d ≠ []) (hdig : ∀ c ∈ d, c.isDigit = true) :
    stripSlotSuffix (s ++ ':' :: d) = s := by
  have hrev : (s ++ ':' :: d).reverse = d.reverse ++ ':' :: s.reverse := by
    rw [List.reverse_append]
    simp
  have htw : (d.reverse ++ ':' :: s.reverse).takeWhile Char.isDigit = d.reverse := by
    rw [takeWhile_append_all d.reverse _ (fun c hc => hdig c (List.mem_reverse.mp hc))]
    simp [List.takeWhile_cons]
  simp only [stripSlotSuffix]
  rw [hrev, htw]
  rw [if_neg (by simpa using hd)]
  rw [List.drop_left]
  simp

theorem stripSlotSuffix_of_not_slot {l : List Char} (h : hasSlotSuffix l = false) :
    stripSlotSuffix l = l := by
  simp only [stripSlotSuffix]
  simp only [hasSlotSuffix] at h
  by_cases hds : l.reverse.takeWhile Char.isDigit = []
  · simp only [hds]
    simp
  · simp only [if_neg hds] at h ⊢
    cases hm : l.reverse.drop (l.reverse.takeWhile Char.isDigit).length with
    | nil => rfl
    | cons c rest =>
      rw [hm] at h
      by_cases hc : c = ':'
      · subst hc
        simp at h
      · simp [hc]

theorem data_decorated (s d : String) :
    ("^" ++ s ++ ":" ++ d).data = '^' :: (s.data ++ ':' :: d.data) ∧
    (s ++ ":" ++ d).data = s.data ++ ':' :: d.data ∧
    ("^" ++ s).data = '^' :: s.data := by
  refine ⟨?_, ?_, ?_⟩ <;>
    simp [String.data_append, List.append_assoc]

end FoldBatchNormNodes

/-- Claim C9: `node_name_from_input` strips one leading control marker
and one trailing output-slot suffix `:N` (N a nonempty digit string) to
return the base node name, and leaves an undecorated name unchanged;
`node_from_map` resolves through this stripping, returning the mapped
node exactly when the stripped base name is present and raising a
ValueError exactly when it is absent. -/
theorem node_name_resolution_spec (s d : String)
    (hcar : s.data.head? ≠ some '^')
    (hslot : FoldBatchNormNodes.hasSlotSuffix s.data = false)
    (hd : d.data ≠ []) (hdig : ∀ c ∈ d.data, c.isDigit = true) :
    FoldBatchNormNodes.node_name_from_input s = s ∧
    FoldBatchNormNodes.node_name_from_input ("^" ++ s) = s ∧
    FoldBatchNormNodes.node_name_from_input (s ++ ":" ++ d) = s ∧
    FoldBatchNormNodes.node_name_from_input ("^" ++ s ++ ":" ++ d) = s ∧
    ∀ g : GraphDef,
      ((∃ msg, FoldBatchNormNodes.node_from_map g ("^" ++ s ++ ":" ++ d) =
          .error (.valueError msg)) ↔ findNode g s = none) ∧
      ∀ nd, findNode g s = some nd →
        FoldBatchNormNodes.node_from_map g ("^" ++ s ++ ":" ++ d) = .ok nd := by
  obtain ⟨hd1, hd2, hd3⟩ := FoldBatchNormNodes.data_decorated s d
  have hplain : FoldBatchNormNodes.node_name_from_input s = s := by
    unfold FoldBatchNormNodes.node_name_from_input
    rw [FoldBatchNormNodes.stripCaret_of_head hcar,
        FoldBatchNormNodes.stripSlotSuffix_of_not_slot hslot]
  have hcaret : FoldBatchNormNodes.node_name_from_input ("^" ++ s) = s := by
    unfold FoldBatchNormNodes.node_name_from_input
    rw [hd3]
    show (⟨FoldBatchNormNodes.stripSlotSuffix s.data⟩ : String) = s
    rw [FoldBatchNormNodes.stripSlotSuffix_of_not_slot hslot]
  have hhead2 : (s.data ++ ':' :: d.data).head? ≠ some '^' := by
    cases hs : s.data with
    | nil => simp
    | cons a t =>
      rw [hs] at hcar
      simpa using hcar
  have hslotted : FoldBatchNormNodes.node_name_from_input (s ++ ":" ++ d) = s := by
    unfold FoldBatchNormNodes.node_name_from_input
    rw [hd2, FoldBatchNormNodes.stripCaret_of_head hhead2,
        FoldBatchNormNodes.stripSlotSuffix_append_digits s.data d.data hd hdig]
  have hboth : FoldBatchNormNodes.node_name_from_input ("^" ++ s ++ ":" ++ d) = s := by
    unfold FoldBatchNormNodes.node_name_from_input
    rw [hd1]
    show (⟨FoldBatchNormNodes.stripSlotSuffix (s.data ++ ':' :: d.data)⟩ : String) = s
    rw [FoldBatchNormNodes.stripSlotSuffix_append_digits s.data d.data hd hdig]
  refine ⟨hplain, hcaret, hslotted, hboth, ?_⟩
  intro g
  unfold FoldBatchNormNodes.node_from_map
  rw [hboth]
  constructor
  · constructor
    · intro ⟨msg, hmsg⟩
      cases hf : findNode g s with
      | none => rfl
      | some n => rw [hf] at hmsg; cases hmsg
    · intro hf
      rw [hf]
      exact ⟨_, rfl⟩
  · intro nd hf
    rw [hf]

/-- Witness for claim C9: the decorated reference resolves to the
fixture convolution. -/
theorem node_name_resolution_spec_witness :
    FoldBatchNormNodes.node_name_from_input "conv" = "conv" ∧
    FoldBatchNormNodes.node_name_from_input ("^" ++ "conv") = "conv" ∧
    FoldBatchNormNodes.node_name_from_input ("conv" ++ ":" ++ "0") = "conv" ∧
    FoldBatchNormNodes.node_name_from_input ("^" ++ "conv" ++ ":" ++ "0") = "conv" ∧
    ∀ g : GraphDef,
      ((∃ msg, FoldBatchNormNodes.node_from_map g ("^" ++ "conv" ++ ":" ++ "0") =
          .error (.valueError msg)) ↔ findNode g "conv" = none) ∧
      ∀ nd, findNode g "conv" = some nd →
        FoldBatchNormNodes.node_from_map g ("^" ++ "conv" ++ ":" ++ "0") = .ok nd :=
  node_name_resolution_spec "conv" "0" (by decide) (by decide) (by decide)
    (by decide)

/-! ### Claim C3 -/

namespace OutputGrabber

theorem readOutput_cons (c : List Char) (rest : List (List Char)) :
    readOutput (c :: rest) =
      if c = [] ∨ c.getLast? = some escape_char then []
      else c ++ readOutput rest := rfl

theorem readOutput_exact_aux :
    ∀ (chunks : List (List Char)) (w : List Char),
      escape_char ∉ w →
      chunks.flatten = w ++ [escape_char] →
      (∀ c ∈ chunks, c ≠ []) →
      chunks.getLast? = some [escape_char] →
      readOutput chunks = w := by
  intro chunks
  induction chunks with
  | nil =>
    intro w _ _ _ hlast
    simp at hlast
  | cons c rest ih =>
    intro w hesc hjoin hne hlast
    cases rest with
    | nil =>
      have hc : c = [escape_char] := by simpa using hlast
      subst hc
      rw [List.flatten_cons, List.flatten_nil, List.append_nil] at hjoin
      have hw : w = [] := by
        cases w with
        | nil => rfl
        | cons a t =>
          have hlen := congrArg List.length hjoin
          simp [List.length_append] at hlen
      subst hw
      decide
    | cons c2 rest2 =>
      have hlast2 : (c2 :: rest2).getLast? = some [escape_char] := by
        rw [← List.getLast?_cons_cons]
        exact hlast
      have hjoin2 : c ++ (c2 :: rest2).flatten = w ++ [escape_char] := by
        rw [← List.flatten_cons]
        exact hjoin
      have hmemlast : ([escape_char] : List Char) ∈ c2 :: rest2 :=
        List.mem_of_mem_getLast? hlast2
      have hflpos : 0 < (c2 :: rest2).flatten.length := by
        refine List.length_pos.mpr ?_
        intro hnil
        have : escape_char ∈ (c2 :: rest2).flatten :=
          List.mem_flatten.mpr ⟨[escape_char], hmemlast, by simp⟩
        rw [hnil] at this
        cases this
      have hlen : c.length ≤ w.length := by
        have h1 := congrArg List.length hjoin2
        rw [List.length_append, List.length_append] at h1
        simp only [List.length_cons, List.length_nil] at h1
        omega
      have hc : c = w.take c.length := by
        have h2 := congrArg (List.take c.length) hjoin2
        rw [List.take_left] at h2
        rw [List.take_append_of_le_length hlen] at h2
        exact h2
      have hescc : escape_char ∉ c := by
        rw [hc]
        intro hm
        exact hesc (List.mem_of_mem_take hm)
      have hcond : ¬(c = [] ∨ c.getLast? = some escape_char) := by
        rintro (hnil | hg)
        · exact hne c (List.mem_cons_self _ _) hnil
        · exact hescc (List.mem_of_mem_getLast? hg)
      have hdropj : (c2 :: rest2).flatten = w.drop c.length ++ [escape_char] := by
        have h3 := congrArg (List.drop c.length) hjoin2
        rw [List.drop_left] at h3
        rw [List.drop_append_of_le_length hlen] at h3
        exact h3
      have hesc2 : escape_char ∉ w.drop c.length := by
        intro hm
        exact hesc (List.mem_of_mem_drop hm)
      have hrest := ih (w.drop c.length) hesc2 hdropj
        (fun x hx => hne x (List.mem_cons_of_mem _ hx)) hlast2
      rw [readOutput_cons, if_neg hcond, hrest]
      conv_rhs => rw [← List.take_append_drop c.length w]
      rw [← hc]

end OutputGrabber

/-- Counterexample to claim C3 as stated: the written text "a" does not
contain the sentinel, the reads are a legal chunking of the stream
(text followed by the sentinel written by `stop()`), yet `readOutput`
captures nothing, because the read that delivers the sentinel also
carries the trailing data byte and the loop discards that entire read. -/
theorem output_capture_loses_trailing_chunk :
    OutputGrabber.escape_char ∉ ['a'] ∧
    OutputGrabber.IsChunking ['a'] [['a', OutputGrabber.escape_char]] ∧
    OutputGrabber.readOutput [['a', OutputGrabber.escape_char]] ≠ ['a'] := by
  refine ⟨by decide, ⟨by decide, ?_⟩, by decide⟩
  intro c hc
  simp at hc
  subst hc
  decide

/-- Claim C3 (amended): for every byte sequence written to the redirected
stream that does not contain the sentinel escape byte, and every chunking
of the stream into nonempty reads in which the final read delivers the
sentinel alone, `capturedtext` after `stop()` is byte-identical to what
was written, and capture terminates exactly at that single sentinel read,
having consumed precisely the reads before it. -/
theorem output_capture_exact_when_sentinel_alone (w : List Char)
    (chunks : List (List Char))
    (hesc : OutputGrabber.escape_char ∉ w)
    (hchunk : OutputGrabber.IsChunking w chunks)
    (hlast : chunks.getLast? = some [OutputGrabber.escape_char]) :
    OutputGrabber.readOutput chunks = w ∧
    OutputGrabber.readOutput chunks = chunks.dropLast.flatten := by
  obtain ⟨hjoin, hne⟩ := hchunk
  have h1 := OutputGrabber.readOutput_exact_aux chunks w hesc hjoin hne hlast
  refine ⟨h1, ?_⟩
  have hsplit : chunks.dropLast ++ [[OutputGrabber.escape_char]] = chunks :=
    List.dropLast_append_getLast? _ hlast
  have hfl : chunks.dropLast.flatten ++ [OutputGrabber.escape_char] =
      w ++ [OutputGrabber.escape_char] := by
    have := congrArg List.flatten hsplit
    rw [List.flatten_append] at this
    simp only [List.flatten_cons, List.flatten_nil, List.append_nil] at this
    rw [this, hjoin]
  have := List.append_cancel_right hfl
  rw [h1, this]

/-- Witness for the amended claim C3: the text "ab" is recovered exactly
when each data byte arrives in its own read and the sentinel arrives
alone. -/
theorem output_capture_exact_when_sentinel_alone_witness :
    OutputGrabber.readOutput [['a'], ['b'], [OutputGrabber.escape_char]] = ['a', 'b'] ∧
    OutputGrabber.readOutput [['a'], ['b'], [OutputGrabber.escape_char]] =
      ([['a'], ['b'], [OutputGrabber.escape_char]].dropLast).flatten :=
  output_capture_exact_when_sentinel_alone ['a', 'b']
    [['a'], ['b'], [OutputGrabber.escape_char]]
    (by decide)
    ⟨by decide, by
      intro c hc
      simp at hc
      rcases hc with rfl | rfl | rfl <;> decide⟩
    (by decide)

/-! ### Claim C6 -/

/-- Claim C6: `_parse_output` raises its assertion failure exactly when
the captured text holds an odd number of semicolon delimiters; with an
even count the assertion check passes (any remaining failure is the
IndexError of an empty position list, not the assertion). -/
theorem parse_output_assert_iff_odd (input : List Char) :
    GraphConverter.parse_output input = .error .assertionError ↔
      input.count ';' % 2 = 1 := by
  unfold GraphConverter.parse_output
  by_cases h : input.count ';' % 2 ≠ 0
  · rw [if_pos h]
    constructor
    · intro _
      omega
    · intro _
      rfl
  · rw [if_neg h]
    push_neg at h
    constructor
    · intro hcontra
      exfalso
      cases hev : GraphConverter.everyOther (GraphConverter.semicolonIndices input) with
      | nil => rw [hev] at hcontra; simp at hcontra
      | cons i rest => rw [hev] at hcontra; simp at hcontra
    · intro h1
      exact absurd h1 (by omega)

/-! ### Claim C10 -/

/-- Claim C10: `_insert_logging` leaves the in-memory pipeline graph
unchanged — it saves a copy, instruments, writes the instrumented graph
only to the logged-graph file, and restores `_tmp_graph_def` — for any
behaviour of the three InsertLogging transformations. -/
theorem insert_logging_preserves_tmp_graph
    (requantLog minLog maxLog : GraphDef → GraphDef)
    (st : GraphConverter.ConverterState) :
    (GraphConverter.insert_logging requantLog minLog maxLog st).tmpGraphDef
      = st.tmpGraphDef ∧
    (GraphConverter.insert_logging requantLog minLog maxLog st).files =
      st.files ++ [(GraphConverter.int8LoggedGraphName,
        maxLog (minLog (requantLog st.tmpGraphDef)))] :=
  ⟨rfl, rfl⟩

/-! ### Claim C2 -/

/-- Claim C2 names a code bug: when a quantization step raises, the
except clause of `GraphConverter.quantize` logs the wrapped context
message and re-raises a ValueError, and the guaranteed-cleanup block
does run `_post_clean`; but that `finally` block ends in `return graph`,
which by Python semantics discards the pending exception, so the caller
receives a normal return of the pipeline graph instead of the fatal
error the claim (and the spec) promise. -/
theorem quantize_finally_return_swallows_error (e : String)
    (st : GraphConverter.ConverterState) :
    (GraphConverter.quantize false (some e) st).pendingException = some e ∧
    (GraphConverter.quantize false (some e) st).loggedError =
      some ("Failed to quantize graph due to: " ++ e) ∧
    (GraphConverter.quantize false (some e) st).finalFiles =
      GraphConverter.post_clean st.files ∧
    (GraphConverter.quantize false (some e) st).returned = .ok st.tmpGraphDef ∧
    ∀ msg, (GraphConverter.quantize false (some e) st).returned ≠ .error msg := by
  refine ⟨rfl, rfl, rfl, rfl, ?_⟩
  intro msg hmsg
  simp [GraphConverter.quantize, GraphConverter.pyFinallyReturn] at hmsg

/-! ### Claim C4: supporting lemmas -/

namespace FoldBatchNormNodes

theorem node_from_map_mem {G : GraphDef} {s : String} {p : NodeDef}
    (h : node_from_map G s = .ok p) : p ∈ G := by
  unfold node_from_map at h
  cases hf : findNode G (node_name_from_input s) with
  | none => rw [hf] at h; cases h
  | some n =>
    rw [hf] at h
    injection h with h
    subst h
    unfold findNode at hf
    exact List.mem_of_find?_eq_some hf

theorem resolveInput_mem {G : GraphDef} {n p : NodeDef} {i : Nat}
    (h : resolveInput G n i = .ok p) : p ∈ G := by
  unfold resolveInput at h
  cases hg : getInput n i with
  | error e => rw [hg] at h; cases h
  | ok s =>
    rw [hg] at h
    exact node_from_map_mem h

theorem channelCount_get3 {convOp : String} {w : Tensor} {cc : Nat}
    (h : channelCountOf convOp w = .ok cc) :
    ∃ y, w.shape.get? 3 = some y := by
  unfold channelCountOf at h
  by_cases hco : convOp = "Conv2D"
  · rw [if_pos hco] at h
    unfold shapeAt at h
    cases hg : w.shape.get? 3 with
    | none => rw [hg] at h; cases h
    | some y => exact ⟨y, rfl⟩
  · rw [if_neg hco] at h
    unfold shapeAt at h
    cases hg3 : w.shape.get? 3 with
    | some y3 => exact ⟨y3, rfl⟩
    | none =>
      rw [hg3] at h
      cases hg2 : w.shape.get? 2 with
      | none => rw [hg2] at h; cases h
      | some y2 => rw [hg2] at h; cases h

theorem param_ne_weights {g : GraphDef} {node : NodeDef} (v : ValidMatch g node)
    {p : NodeDef} {t : Tensor}
    (hpv : values_from_const p = .ok t) (hts : t.shape = [v.cc]) :
    p ≠ v.weights_op := by
  intro he
  subst he
  rw [v.hwval] at hpv
  injection hpv with hpv
  subst hpv
  obtain ⟨y, hy⟩ := channelCount_get3 v.hcc
  rw [hts] at hy
  simp [List.get?] at hy

theorem find?_append_none {α} (p : α → Bool) :
    ∀ (l1 l2 : List α), (∀ x ∈ l1, p x = false) →
      (l1 ++ l2).find? p = l2.find? p := by
  intro l1
  induction l1 with
  | nil => intro l2 _; rfl
  | cons a l1 ih =>
    intro l2 h
    have ha := h a (List.mem_cons_self _ _)
    rw [List.cons_append, List.find?_cons, ha]
    exact ih l2 (fun x hx => h x (List.mem_cons_of_mem _ hx))

theorem processNodes_single (sqrt : ℚ → ℚ) (G : GraphDef) (node : NodeDef) (M : FoldMatch)
    (hmatch : processCandidate sqrt G node = .ok (.matched M)) :
    ∀ l : List NodeDef, node ∈ l → l.count node = 1 →
      (∀ x ∈ l, x ≠ node → okNotMatched (processCandidate sqrt G x) = true) →
      processNodes sqrt G l = .ok (skipsOf M, newOpsOf M) := by
  intro l
  induction l with
  | nil => intro hmem; cases hmem
  | cons a rest ih =>
    intro hmem hcount hok
    by_cases ha : a = node
    · subst ha
      have hcr : rest.count a = 0 := by
        rw [List.count_cons_self] at hcount
        omega
      have hnotin : a ∉ rest := List.count_eq_zero.mp hcr
      have hrest : processNodes sqrt G rest = .ok ([], []) := by
        apply processNodes_of_none_matched
        intro x hx
        have hxa : x ≠ a := fun he => hnotin (he ▸ hx)
        exact hok x (List.mem_cons_of_mem _ hx) hxa
      rw [processNodes_cons, hmatch, hrest]
      simp
    · have hmem2 : node ∈ rest := by
        rcases List.mem_cons.mp hmem with he | h2
        · exact absurd he.symm ha
        · exact h2
      have hcount2 : rest.count node = 1 := by
        rw [List.count_cons] at hcount
        have hb : (a == node) = false := by simp [ha]
        rw [hb] at hcount
        simpa using hcount
      have hok2 : ∀ x ∈ rest, x ≠ node → okNotMatched (processCandidate sqrt G x) = true :=
        fun x hx => hok x (List.mem_cons_of_mem _ hx)
      have hres := ih hmem2 hcount2 hok2
      have hana := hok a (List.mem_cons_self _ _) ha
      cases hc : processCandidate sqrt G a with
      | error e => rw [hc] at hana; simp [okNotMatched] at hana
      | ok r =>
        cases r with
        | matched m => rw [hc] at hana; simp [okNotMatched] at hana
        | notCandidate => rw [processNodes_cons, hc, hres]
        | skip w => rw [processNodes_cons, hc, hres]

end FoldBatchNormNodes

/-- Counterexample to claim C4 as stated (for every graph and every
valid folded match): in a graph where two FusedBatchNorm nodes share one
convolution, both candidates are valid folded matches and the pass
succeeds, but the output graph then carries two distinct rewritten Const
nodes both bearing the weight constant name (and two nodes bearing the
offset name), so the name resolution the claim promises cannot hold for
both matches at once — at most one of the two different rewritten weight
constants can be what the weight name resolves to — and the output even
violates the duplicate-name invariant: running the pass again on it
raises the duplicate-name ValueError for the weight name. -/
theorem fold_rewires_names_counterexample :
    FoldBatchNormNodes.processCandidate id exGraphD exBN =
      .ok (.matched (exValidD1.fold id)) ∧
    FoldBatchNormNodes.processCandidate id exGraphD exBN2 =
      .ok (.matched (exValidD2.fold id)) ∧
    (exValidD1.fold id).scaledWeightsNode.name = exW.name ∧
    (exValidD2.fold id).scaledWeightsNode.name = exW.name ∧
    (exValidD1.fold id).scaledWeightsNode ≠ (exValidD2.fold id).scaledWeightsNode ∧
    (FoldBatchNormNodes.do_transform id exGraphD).map
        (fun out => (out.map (fun n => n.name)).count exW.name) = .ok 2 ∧
    (FoldBatchNormNodes.do_transform id exGraphD).map
        (fun out => (out.map (fun n => n.name)).count (exConv.name ++ "_bn_offset")) = .ok 2 ∧
    (FoldBatchNormNodes.do_transform id exGraphD).bind
        (fun out => FoldBatchNormNodes.do_transform id out) =
      .error (.valueError ("Duplicate node names detected for " ++ exW.name)) := by
  refine ⟨FoldBatchNormNodes.processCandidate_valid id exValidD1,
    FoldBatchNormNodes.processCandidate_valid id exValidD2, rfl, rfl, ?_,
    by decide, by decide, by decide⟩
  intro h
  have hd := congrArg (fun n : NodeDef => (getAttr n "value").tensorVal.data.getD 0 0) h
  simp only at hd
  have hscale1 : (exValidD1.fold id).scaleValue = [1/2, 1/3] := by
    show FoldBatchNormNodes.scaleValueOf id [4, 9] [2, 3] 0 true = [1/2, 1/3]
    simp [FoldBatchNormNodes.scaleValueOf]
    norm_num
  have hscale2 : (exValidD2.fold id).scaleValue = [1, 5/9] := by
    show FoldBatchNormNodes.scaleValueOf id [4, 9] [4, 5] 0 true = [1, 5/9]
    simp [FoldBatchNormNodes.scaleValueOf]
    norm_num
  have hidx : FoldBatchNormNodes.scaleIndex exConv.op exT.shape 0 = 0 := by decide
  have e1 : (getAttr (exValidD1.fold id).scaledWeightsNode "value").tensorVal.data.getD 0 0
      = exT.data.getD 0 0 * (exValidD1.fold id).scaleValue.getD 0 0 := by
    show (FoldBatchNormNodes.scaledWeightsData exConv.op exT
      (exValidD1.fold id).scaleValue).getD 0 0 = _
    unfold FoldBatchNormNodes.scaledWeightsData
    rw [FoldBatchNormNodes.getD_map_range _ 0 (show 0 < exT.shape.prod by decide), hidx]
  have e2 : (getAttr (exValidD2.fold id).scaledWeightsNode "value").tensorVal.data.getD 0 0
      = exT.data.getD 0 0 * (exValidD2.fold id).scaleValue.getD 0 0 := by
    show (FoldBatchNormNodes.scaledWeightsData exConv.op exT
      (exValidD2.fold id).scaleValue).getD 0 0 = _
    unfold FoldBatchNormNodes.scaledWeightsData
    rw [FoldBatchNormNodes.getD_map_range _ 0 (show 0 < exT.shape.prod by decide), hidx]
  rw [e1, e2, hscale1, hscale2] at hd
  norm_num [exT, List.getD_cons_zero] at hd

/-- Claim C4 (amended): for a graph whose fold finds exactly the given
valid match and whose generated offset name is fresh — the provisos the
shared-convolution counterexample forces — the output of `do_transform`
no longer contains the batch-norm node or its four parameter constants;
the node found under the original weight name is the rewritten Const,
and the node found under the original batch-norm name is a BiasAdd
consuming the convolution output and the new offset constant, which also
resolves — so references to those names still resolve. -/
theorem fold_rewires_names (sqrt : ℚ → ℚ) {g : GraphDef} {node : NodeDef}
    (v : FoldBatchNormNodes.ValidMatch g node)
    (hnodup : (g.map (fun n => n.name)).Nodup)
    (hnode : node ∈ g)
    (hothers : ∀ x ∈ g, x ≠ node →
      FoldBatchNormNodes.okNotMatched (FoldBatchNormNodes.processCandidate sqrt g x) = true)
    (hoff : v.conv.name ++ "_bn_offset" ∉ g.map (fun n => n.name)) :
    ∃ out, FoldBatchNormNodes.do_transform sqrt g = .ok out ∧
      node ∉ out ∧
      (∀ p ∈ [v.mean_op, v.var_op, v.beta_op, v.gamma_op],
        p.name ∉ out.map (fun n => n.name)) ∧
      findNode out v.weights_op.name = some (v.fold sqrt).scaledWeightsNode ∧
      (v.fold sqrt).scaledWeightsNode.name = v.weights_op.name ∧
      (v.fold sqrt).scaledWeightsNode.op = "Const" ∧
      findNode out node.name = some (v.fold sqrt).biasAddNode ∧
      (v.fold sqrt).biasAddNode.op = "BiasAdd" ∧
      (v.fold sqrt).biasAddNode.input = [v.conv.name, (v.fold sqrt).offsetNode.name] ∧
      findNode out (v.fold sqrt).offsetNode.name = some (v.fold sqrt).offsetNode := by
  have hmatch := FoldBatchNormNodes.processCandidate_valid sqrt v
  set M := v.fold sqrt with hM
  have hconvmem : v.conv ∈ g := FoldBatchNormNodes.resolveInput_mem v.hconv
  have hwmem : v.weights_op ∈ g := FoldBatchNormNodes.resolveInput_mem v.hweights
  have hmmem : v.mean_op ∈ g := FoldBatchNormNodes.resolveInput_mem v.hmean
  have hvmem : v.var_op ∈ g := FoldBatchNormNodes.resolveInput_mem v.hvar
  have hbmem : v.beta_op ∈ g := FoldBatchNormNodes.resolveInput_mem v.hbeta
  have hgmem : v.gamma_op ∈ g := FoldBatchNormNodes.resolveInput_mem v.hgamma
  have hinj : ∀ ⦃x⦄, x ∈ g → ∀ ⦃y⦄, y ∈ g → x.name = y.name → x = y :=
    List.inj_on_of_nodup_map hnodup
  have hskips : FoldBatchNormNodes.skipsOf M =
      [node.name, v.weights_op.name, v.mean_op.name, v.var_op.name,
       v.beta_op.name, v.gamma_op.name, v.conv.name] := rfl
  have hnew : FoldBatchNormNodes.newOpsOf M =
      [M.scaledWeightsNode, v.conv, M.offsetNode, M.biasAddNode] := rfl
  have hswn : M.scaledWeightsNode.name = v.weights_op.name := rfl
  have hswo : M.scaledWeightsNode.op = "Const" := rfl
  have hofn : M.offsetNode.name = v.conv.name ++ "_bn_offset" := rfl
  have hban : M.biasAddNode.name = node.name := rfl
  have hbao : M.biasAddNode.op = "BiasAdd" := rfl
  have hbai : M.biasAddNode.input = [v.conv.name, v.conv.name ++ "_bn_offset"] := rfl
  have hfd : FoldBatchNormNodes.firstDuplicate [] (g.map fun n => n.name) = none :=
    FoldBatchNormNodes.firstDuplicate_of_nodup [] hnodup (by simp)
  have hcount : g.count node = 1 :=
    List.count_eq_one_of_mem (List.Nodup.of_map _ hnodup) hnode
  have hpn : FoldBatchNormNodes.processNodes sqrt g g =
      .ok (FoldBatchNormNodes.skipsOf M, FoldBatchNormNodes.newOpsOf M) :=
    FoldBatchNormNodes.processNodes_single sqrt g node M hmatch g hnode hcount hothers
  set retained := g.filter (fun n => decide (n.name ∉ FoldBatchNormNodes.skipsOf M))
    with hret
  have hout : FoldBatchNormNodes.do_transform sqrt g =
      .ok (retained ++ FoldBatchNormNodes.newOpsOf M) := by
    unfold FoldBatchNormNodes.do_transform
    rw [hfd, hpn]
  have hretained_names : ∀ q ∈ retained, q.name ∉ FoldBatchNormNodes.skipsOf M := by
    intro q hq
    have h2 := List.mem_filter.mp hq
    simpa using h2.2
  have hretained_mem : ∀ q ∈ retained, q ∈ g := by
    intro q hq
    exact (List.mem_filter.mp hq).1
  -- name distinctions
  have hwnn : v.weights_op.name ≠ node.name := by
    intro he
    have heq := hinj hwmem hnode he
    have hop2 : node.op = "Const" := by rw [← heq]; exact v.hwconst
    rcases v.hop with hb | hb <;> (rw [hb] at hop2; exact absurd hop2 (by decide))
  have hcnn : v.conv.name ≠ node.name := by
    intro he
    have heq := hinj hconvmem hnode he
    rcases v.hconvop with hc | hc <;> rcases v.hop with hb | hb <;>
      (rw [heq, hb] at hc; exact absurd hc (by decide))
  have honn : v.conv.name ++ "_bn_offset" ≠ node.name := by
    intro he
    apply hoff
    rw [he]
    exact List.mem_map.mpr ⟨node, hnode, rfl⟩
  have honw : v.conv.name ++ "_bn_offset" ≠ v.weights_op.name := by
    intro he
    apply hoff
    rw [he]
    exact List.mem_map.mpr ⟨v.weights_op, hwmem, rfl⟩
  have hcnw : v.conv.name ≠ v.weights_op.name := by
    intro he
    have heq := hinj hconvmem hwmem he
    have hop2 : v.conv.op = "Const" := by rw [heq]; exact v.hwconst
    rcases v.hconvop with hc | hc <;> (rw [hc] at hop2; exact absurd hop2 (by decide))
  -- a Const parameter with shape (cc,) shares no name with any new op
  have hparam_notin : ∀ (p : NodeDef) (t : Tensor), p ∈ g → p.op = "Const" →
      FoldBatchNormNodes.values_from_const p = .ok t → t.shape = [v.cc] →
      p.name ∈ FoldBatchNormNodes.skipsOf M →
      p.name ∉ (retained ++ FoldBatchNormNodes.newOpsOf M).map (fun n => n.name) := by
    intro p t hpmem hpconst hpval hpshape hpskip hmem
    rw [List.map_append, List.mem_append] at hmem
    rcases hmem with hr | hn
    · obtain ⟨q, hq, hqn⟩ := List.mem_map.mp hr
      have hq2 := hretained_names q hq
      rw [hqn] at hq2
      exact hq2 hpskip
    · rw [hnew] at hn
      simp only [List.map_cons, List.map_nil] at hn
      rw [hswn, hofn, hban] at hn
      simp only [List.mem_cons, List.not_mem_nil, or_false] at hn
      rcases hn with h1 | h2 | h3 | h4
      · have hpw : p = v.weights_op := hinj hpmem hwmem h1
        exact FoldBatchNormNodes.param_ne_weights v hpval hpshape hpw
      · have hpc : p = v.conv := hinj hpmem hconvmem h2
        have hop2 : v.conv.op = "Const" := by rw [← hpc]; exact hpconst
        rcases v.hconvop with hc | hc <;> (rw [hc] at hop2; exact absurd hop2 (by decide))
      · apply hoff
        rw [← h3]
        exact List.mem_map.mpr ⟨p, hpmem, rfl⟩
      · have hpn2 : p = node := hinj hpmem hnode h4
        have hop2 : node.op = "Const" := by rw [← hpn2]; exact hpconst
        rcases v.hop with hb | hb <;> (rw [hb] at hop2; exact absurd hop2 (by decide))
  refine ⟨retained ++ FoldBatchNormNodes.newOpsOf M, hout, ?_, ?_, ?_, hswn, hswo, ?_, hbao, ?_, ?_⟩
  · -- node is gone
    intro hmem
    rcases List.mem_append.mp hmem with hr | hn
    · apply hretained_names node hr
      rw [hskips]
      simp
    · rw [hnew] at hn
      simp only [List.mem_cons, List.not_mem_nil, or_false] at hn
      rcases hn with h1 | h2 | h3 | h4
      · have hop2 : node.op = "Const" := (congrArg NodeDef.op h1).trans hswo
        rcases v.hop with hb | hb <;> (rw [hb] at hop2; exact absurd hop2 (by decide))
      · have hop2 : node.op = v.conv.op := congrArg NodeDef.op h2
        rcases v.hop with hb | hb <;> rcases v.hconvop with hc | hc <;>
          (rw [hb, hc] at hop2; exact absurd hop2 (by decide))
      · have hop2 : node.op = "Const" := congrArg NodeDef.op h3
        rcases v.hop with hb | hb <;> (rw [hb] at hop2; exact absurd hop2 (by decide))
      · have hop2 : node.op = "BiasAdd" := (congrArg NodeDef.op h4).trans hbao
        rcases v.hop with hb | hb <;> (rw [hb] at hop2; exact absurd hop2 (by decide))
  · -- the four parameter constants are gone
    intro p hp
    simp only [List.mem_cons, List.not_mem_nil, or_false] at hp
    rcases hp with rfl | rfl | rfl | rfl
    · exact hparam_notin _ _ hmmem v.hmconst v.hmval v.hmshape (by rw [hskips]; simp)
    · exact hparam_notin _ _ hvmem v.hvconst v.hvval v.hvshape (by rw [hskips]; simp)
    · exact hparam_notin _ _ hbmem v.hbconst v.hbval v.hbshape (by rw [hskips]; simp)
    · exact hparam_notin _ _ hgmem v.hgconst v.hgval v.hgshape (by rw [hskips]; simp)
  · -- the weight name resolves to the rewritten constant
    have hretnone : ∀ q ∈ retained, (q.name == v.weights_op.name) = false := by
      intro q hq
      have hq2 := hretained_names q hq
      have hne2 : q.name ≠ v.weights_op.name := by
        intro he
        apply hq2
        rw [hskips, he]
        simp
      simp [hne2]
    unfold findNode
    rw [FoldBatchNormNodes.find?_append_none _ retained _ hretnone]
    have ht : (M.scaledWeightsNode.name == v.weights_op.name) = true := by
      rw [hswn]
      simp
    simp only [hnew, List.find?_cons, ht]
  · -- the batch-norm name resolves to the BiasAdd
    have hretnone : ∀ q ∈ retained, (q.name == node.name) = false := by
      intro q hq
      have hq2 := hretained_names q hq
      have hne2 : q.name ≠ node.name := by
        intro he
        apply hq2
        rw [hskips, he]
        simp
      simp [hne2]
    unfold findNode
    rw [FoldBatchNormNodes.find?_append_none _ retained _ hretnone]
    have hf1 : (M.scaledWeightsNode.name == node.name) = false := by
      rw [hswn]
      simp [hwnn]
    have hf2 : (v.conv.name == node.name) = false := by simp [hcnn]
    have hf3 : (M.offsetNode.name == node.name) = false := by
      rw [hofn]
      simp [honn]
    have ht4 : (M.biasAddNode.name == node.name) = true := by
      rw [hban]
      simp
    simp only [hnew, List.find?_cons, hf1, hf2, hf3, ht4]
  · -- the BiasAdd consumes the convolution and the offset constant
    rw [hbai, hofn]
  · -- the offset name resolves to the offset constant
    have hretnone : ∀ q ∈ retained, (q.name == M.offsetNode.name) = false := by
      intro q hq
      have hqg := hretained_mem q hq
      have hne2 : q.name ≠ M.offsetNode.name := by
        intro he
        apply hoff
        rw [hofn] at he
        rw [← he]
        exact List.mem_map.mpr ⟨q, hqg, rfl⟩
      simp [hne2]
    unfold findNode
    rw [FoldBatchNormNodes.find?_append_none _ retained _ hretnone]
    have hf1 : (M.scaledWeightsNode.name == M.offsetNode.name) = false := by
      rw [hswn, hofn]
      simp
      intro he
      exact honw he.symm
    have hf2 : (v.conv.name == M.offsetNode.name) = false := by
      rw [hofn]
      simp only [beq_eq_false_iff_ne, ne_eq]
      intro he
      apply hoff
      rw [← he]
      exact List.mem_map.mpr ⟨v.conv, hconvmem, rfl⟩
    have ht3 : (M.offsetNode.name == M.offsetNode.name) = true := by simp
    simp only [hnew, List.find?_cons, hf1, hf2, ht3]

/-- Witness for claim C4: the fixture graph after folding no longer holds
the FusedBatchNorm or its parameter constants, and the weight,
batch-norm and offset names resolve to the rewritten nodes. -/
theorem fold_rewires_names_witness :
    ∃ out, FoldBatchNormNodes.do_transform id exGraph = .ok out ∧
      exBN ∉ out ∧
      (∀ p ∈ [exValid.mean_op, exValid.var_op, exValid.beta_op, exValid.gamma_op],
        p.name ∉ out.map (fun n => n.name)) ∧
      findNode out exValid.weights_op.name = some (exValid.fold id).scaledWeightsNode ∧
      (exValid.fold id).scaledWeightsNode.name = exValid.weights_op.name ∧
      (exValid.fold id).scaledWeightsNode.op = "Const" ∧
      findNode out exBN.name = some (exValid.fold id).biasAddNode ∧
      (exValid.fold id).biasAddNode.op = "BiasAdd" ∧
      (exValid.fold id).biasAddNode.input = [exValid.conv.name, (exValid.fold id).offsetNode.name] ∧
      findNode out (exValid.fold id).offsetNode.name = some (exValid.fold id).offsetNode :=
  fold_rewires_names id exValid (by decide) (by decide) (by decide) (by decide)
